import Mathlib

/-!
Verification of the placement sampler of `src/ez-tree-demo/src/TreeDemo.js`.

The repository's only algorithmic component is the random non-overlapping
tree placement: `getRandomPosition` (lines 127-139) draws candidate
positions from a square of half-side `safeRadius` and rejects candidates
lying within `minDistance` of a previously placed position, giving up
after the retry counter exceeds 200; `createForest` (lines 159-228)
places one main tree at the origin and `count - 1` satellite trees via
`getRandomPosition`.

Embedding choices:
* JavaScript floating-point coordinates are idealized as rationals.
* `Math.random()` is modelled by an ambient stream `g : Nat → ℚ × ℚ`
  supplying, for each loop iteration, the pair of `randFloatSpread`
  results used for x and z.  Facts about the range of `randFloatSpread`
  become hypotheses on the stream.
* `p.distanceTo(pos) < minDistance` is modelled as
  `distSq p pos < minDistance * minDistance`, which is equivalent for a
  nonnegative bound since squaring is monotone on nonnegative reals.
* The sampler state carries, besides the `placedPositions` array, the
  index of the next unused stream element (`k`) and a ghost counter of
  while-condition evaluations (`tests`), used to state resource bounds.
-/

namespace TreeDemo

/-- A THREE.Vector3 restricted to its coordinate fields, idealized over ℚ. -/
structure Vec3 where
  x : ℚ
  y : ℚ
  z : ℚ
deriving DecidableEq

/-- Ground plane side length, `const groundSize = 500` (line 98). -/
def groundSize : ℚ := 500

/-- Exclusion radius, `const minDistance = 40` (line 124). -/
def minDistance : ℚ := 40

/-- Sampling half-extent, `const safeRadius = groundSize / 2 - 40` (line 125). -/
def safeRadius : ℚ := groundSize / 2 - 40

/-- Retry ceiling of the do/while loop: `if (tries > 200) break` (line 135). -/
def maxRetries : ℕ := 200

/-- Squared Euclidean distance between two vectors; `p.distanceTo(pos)`
is a 3D Euclidean distance, compared squared throughout this file. -/
def distSq (p q : Vec3) : ℚ :=
  (p.x - q.x) * (p.x - q.x) + (p.y - q.y) * (p.y - q.y) + (p.z - q.z) * (p.z - q.z)

/-- The rejection test `p.distanceTo(pos) < minDistance` (line 136). -/
def tooCloseB (p q : Vec3) : Bool :=
  decide (distSq p q < minDistance * minDistance)

/-- Candidate built at loop iteration `n`:
`pos = new THREE.Vector3(x, 0, z)` with x, z from the random stream
(lines 131-133). -/
def candidate (g : ℕ → ℚ × ℚ) (n : ℕ) : Vec3 :=
  ⟨(g n).1, 0, (g n).2⟩

/-- Outcome of one run of the retry loop: the accepted position, the index
of the next unused stream element, and the number of while-condition
evaluations performed (ghost data for resource bounds). -/
structure DrawResult where
  pos : Vec3
  next : ℕ
  tests : ℕ
deriving DecidableEq

/-- The do/while retry loop of `getRandomPosition` (lines 130-136).
`r` is the remaining budget: on entry to an iteration with counter value
`tries`, `r = maxRetries - tries`; when `r = 0` the freshly drawn
candidate is the one for which `tries > 200` fires, so it is accepted by
`break` without evaluating the while condition. -/
def drawLoop (g : ℕ → ℚ × ℚ) (placed : List Vec3) : ℕ → ℕ → DrawResult
  | k, 0 => ⟨candidate g k, k + 1, 0⟩
  | k, r + 1 =>
    if placed.any (fun p => tooCloseB p (candidate g k)) then
      let d := drawLoop g placed (k + 1) r
      ⟨d.pos, d.next, d.tests + 1⟩
    else
      ⟨candidate g k, k + 1, 1⟩

/-- Mutable context of the sampler: the `placedPositions` array (line 123)
plus the stream cursor `k` and the ghost test counter `tests`. -/
structure SamplerState where
  placed : List Vec3
  k : ℕ
  tests : ℕ
deriving DecidableEq

/-- `getRandomPosition` (lines 127-139): run the retry loop against the
current `placedPositions`, push the accepted position
(`placedPositions.push(pos)`, line 137) and return it. -/
def getRandomPosition (g : ℕ → ℚ × ℚ) (st : SamplerState) : Vec3 × SamplerState :=
  let d := drawLoop g st.placed st.k maxRetries
  (d.pos, ⟨st.placed ++ [d.pos], d.next, st.tests + d.tests⟩)

/-- The satellite loop of `createForest`
(`for (let i = 1; i < count; i++)`, lines 202-220): `n` calls to
`getRandomPosition`, collecting the returned positions in draw order. -/
def placeSatellites (g : ℕ → ℚ × ℚ) : ℕ → SamplerState → List Vec3 × SamplerState
  | 0, st => ([], st)
  | n + 1, st =>
    let r := getRandomPosition g st
    let rest := placeSatellites g n r.2
    (r.1 :: rest.1, rest.2)

/-- The main tree position, `mainTree.position.set(0, 0, 0)` (line 193). -/
def origin : Vec3 := ⟨0, 0, 0⟩

/-- Placement behaviour of `createForest(count)` (lines 159-228): the
`placedPositions` array is cleared (line 174, here a fresh state), the
main tree is placed at the origin WITHOUT being pushed to
`placedPositions`, then the loop `for (let i = 1; i < count; i++)` runs
`getRandomPosition` for each satellite — `(count - 1)` iterations when
`count ≥ 1` and none otherwise.  Returns the positions of all trees
added to the forest group in creation order, with the final sampler
state.  Scene-graph and geometry bookkeeping of the source function is
out of scope. -/
def createForest (g : ℕ → ℚ × ℚ) (count : ℤ) : List Vec3 × SamplerState :=
  let s := placeSatellites g (count - 1).toNat ⟨[], 0, 0⟩
  (origin :: s.1, s.2)

/-- Constant stream: every draw is the centre of the square. -/
def gZero : ℕ → ℚ × ℚ := fun _ => (0, 0)

/-- Constant stream: every draw lands one unit away from the origin on
both axes. -/
def gNear : ℕ → ℚ × ℚ := fun _ => (1, 1)

/-- Constant stream: every draw is the corner of the bounding square,
which lies outside the disk of radius `safeRadius`. -/
def gCorner : ℕ → ℚ × ℚ := fun _ => (210, 210)

/-! ### Helper lemmas about the retry loop -/

/-- Every run of the retry loop accepts one of the candidates drawn from
the stream: the accepted position is `candidate g j` for some draw index
`j` between `k` and `k + r`, and the loop hands back `j + 1` as the next
unused index. -/
theorem drawLoop_spec (g : ℕ → ℚ × ℚ) (placed : List Vec3) :
    ∀ (r k : ℕ), ∃ j, k ≤ j ∧ j ≤ k + r ∧
      (drawLoop g placed k r).pos = candidate g j ∧
      (drawLoop g placed k r).next = j + 1 := by
  intro r
  induction r with
  | zero =>
    intro k
    exact ⟨k, le_rfl, by omega, rfl, rfl⟩
  | succ r ih =>
    intro k
    by_cases h : placed.any (fun p => tooCloseB p (candidate g k)) = true
    · obtain ⟨j, h1, h2, h3, h4⟩ := ih (k + 1)
      refine ⟨j, by omega, by omega, ?_, ?_⟩
      · simp [drawLoop, h, h3]
      · simp [drawLoop, h, h4]
    · exact ⟨k, le_rfl, by omega, by simp [drawLoop, h], by simp [drawLoop, h]⟩

/-- The retry loop evaluates the while condition at most `r` times. -/
theorem drawLoop_tests_le (g : ℕ → ℚ × ℚ) (placed : List Vec3) :
    ∀ (r k : ℕ), (drawLoop g placed k r).tests ≤ r := by
  intro r
  induction r with
  | zero => intro k; exact le_rfl
  | succ r ih =>
    intro k
    by_cases h : placed.any (fun p => tooCloseB p (candidate g k)) = true
    · have := ih (k + 1)
      simp only [drawLoop, h, if_true]
      omega
    · simp [drawLoop, h]

/-- Either the accepted position keeps squared distance at least
`minDistance * minDistance` from every already placed position, or the
whole budget of `r + 1` draws was consumed (the `tries > 200` fallback). -/
theorem drawLoop_dist_or_exhaust (g : ℕ → ℚ × ℚ) (placed : List Vec3) :
    ∀ (r k : ℕ),
      (∀ p ∈ placed, minDistance * minDistance ≤ distSq p (drawLoop g placed k r).pos) ∨
      (drawLoop g placed k r).next = k + r + 1 := by
  intro r
  induction r with
  | zero => intro k; exact Or.inr rfl
  | succ r ih =>
    intro k
    by_cases h : placed.any (fun p => tooCloseB p (candidate g k)) = true
    · rcases ih (k + 1) with hd | he
      · left
        intro p hp
        have := hd p hp
        simpa [drawLoop, h] using this
      · right
        simp only [drawLoop, h, if_true]
        omega
    · left
      intro p hp
      have hall : ∀ p ∈ placed, tooCloseB p (candidate g k) = false := by
        simpa [List.any_eq_true] using h
      have := hall p hp
      have hle : ¬ distSq p (candidate g k) < minDistance * minDistance := by
        simpa [tooCloseB] using this
      simpa [drawLoop, h] using le_of_not_lt hle

/-- If every tested candidate conflicts with the placed set, the loop
runs its full budget and accepts the last-drawn candidate `candidate g
(k + r)`, which is itself never tested. -/
theorem drawLoop_exhaust (g : ℕ → ℚ × ℚ) (placed : List Vec3) :
    ∀ (r k : ℕ),
      (∀ j < r, placed.any (fun p => tooCloseB p (candidate g (k + j))) = true) →
      drawLoop g placed k r = ⟨candidate g (k + r), k + r + 1, r⟩ := by
  intro r
  induction r with
  | zero => intro k _; rfl
  | succ r ih =>
    intro k hall
    have h0 : placed.any (fun p => tooCloseB p (candidate g k)) = true := by
      simpa using hall 0 (by omega)
    have hrec := ih (k + 1) (fun j hj => by
      have := hall (j + 1) (by omega)
      simpa [Nat.add_assoc, Nat.add_comm 1 j] using this)
    have harith : k + 1 + r = k + (r + 1) := by omega
    simp only [drawLoop, h0, if_true, hrec, harith]

/-- The accepted position always has y-coordinate 0. -/
theorem drawLoop_y (g : ℕ → ℚ × ℚ) (placed : List Vec3) (r k : ℕ) :
    (drawLoop g placed k r).pos.y = 0 := by
  obtain ⟨j, _, _, h3, _⟩ := drawLoop_spec g placed r k
  rw [h3]; rfl

/-! ### Helper lemmas about the satellite loop -/

/-- The satellite loop returns one position per iteration. -/
theorem placeSatellites_length (g : ℕ → ℚ × ℚ) :
    ∀ (n : ℕ) (st : SamplerState), ((placeSatellites g n st).1).length = n := by
  intro n
  induction n with
  | zero => intro st; rfl
  | succ n ih => intro st; simp [placeSatellites, ih]

/-- Each iteration pushes exactly one position onto `placedPositions`. -/
theorem placeSatellites_placed_length (g : ℕ → ℚ × ℚ) :
    ∀ (n : ℕ) (st : SamplerState),
      (((placeSatellites g n st).2).placed).length = st.placed.length + n := by
  intro n
  induction n with
  | zero => intro st; rfl
  | succ n ih =>
    intro st
    simp only [placeSatellites]
    rw [ih]
    simp [getRandomPosition]
    omega

/-- The satellite loop consumes at most `maxRetries + 1` stream elements
per placed position. -/
theorem placeSatellites_k (g : ℕ → ℚ × ℚ) :
    ∀ (n : ℕ) (st : SamplerState),
      ((placeSatellites g n st).2).k ≤ st.k + n * (maxRetries + 1) := by
  intro n
  induction n with
  | zero => intro st; simp [placeSatellites]
  | succ n ih =>
    intro st
    obtain ⟨j, h1, h2, _, h4⟩ := drawLoop_spec g st.placed maxRetries st.k
    have hnext : ((getRandomPosition g st).2).k ≤ st.k + (maxRetries + 1) := by
      simp only [getRandomPosition]
      omega
    have := ih (getRandomPosition g st).2
    simp only [placeSatellites]
    calc ((placeSatellites g n (getRandomPosition g st).2).2).k
        ≤ ((getRandomPosition g st).2).k + n * (maxRetries + 1) := this
      _ ≤ st.k + (maxRetries + 1) + n * (maxRetries + 1) := by omega
      _ = st.k + (n + 1) * (maxRetries + 1) := by ring

/-- The satellite loop evaluates the while condition at most `maxRetries`
times per placed position. -/
theorem placeSatellites_tests (g : ℕ → ℚ × ℚ) :
    ∀ (n : ℕ) (st : SamplerState),
      ((placeSatellites g n st).2).tests ≤ st.tests + n * maxRetries := by
  intro n
  induction n with
  | zero => intro st; simp [placeSatellites]
  | succ n ih =>
    intro st
    have hd := drawLoop_tests_le g st.placed maxRetries st.k
    have hnext : ((getRandomPosition g st).2).tests ≤ st.tests + maxRetries := by
      simp only [getRandomPosition]
      omega
    have := ih (getRandomPosition g st).2
    simp only [placeSatellites]
    calc ((placeSatellites g n (getRandomPosition g st).2).2).tests
        ≤ ((getRandomPosition g st).2).tests + n * maxRetries := this
      _ ≤ st.tests + maxRetries + n * maxRetries := by omega
      _ = st.tests + (n + 1) * maxRetries := by ring

/-- Every position returned by the satellite loop is one of the stream's
candidates. -/
theorem placeSatellites_mem (g : ℕ → ℚ × ℚ) :
    ∀ (n : ℕ) (st : SamplerState) (pos : Vec3),
      pos ∈ (placeSatellites g n st).1 → ∃ j, pos = candidate g j := by
  intro n
  induction n with
  | zero => intro st pos h; simp [placeSatellites] at h
  | succ n ih =>
    intro st pos h
    simp only [placeSatellites, List.mem_cons] at h
    rcases h with h | h
    · obtain ⟨j, _, _, h3, _⟩ := drawLoop_spec g st.placed maxRetries st.k
      exact ⟨j, by rw [h, getRandomPosition] at *; exact h3⟩
    · exact ih _ pos h

/-- The retry ceiling written as a successor, for unfolding the loop. -/
theorem maxRetries_succ : maxRetries = 199 + 1 := rfl

/-- If the first candidate passes the distance test, the loop accepts it
immediately, handing back the next stream index and one test. -/
theorem drawLoop_accept (g : ℕ → ℚ × ℚ) (placed : List Vec3) (k r : ℕ)
    (h : placed.any (fun p => tooCloseB p (candidate g k)) = false) :
    drawLoop g placed k (r + 1) = ⟨candidate g k, k + 1, 1⟩ := by
  simp [drawLoop, h]

/-! ### Claim theorems -/

/-- C1 counterexample: the claim quantifies over all `count ≥ 0`, but
`createForest(0)` still places the unconditional main tree, so the
result has length 1, not 0. -/
theorem c1_cex : ¬ (((createForest gZero 0).1).length = (0 : ℤ).toNat) := by
  decide

/-- C1 (amended): for every stream and every `count ≥ 1`, the forest
built by `createForest` has exactly `count` tree positions, in draw
order (the main tree first, then the satellites as drawn). -/
theorem c1_count (g : ℕ → ℚ × ℚ) (count : ℤ) (h : 1 ≤ count) :
    ((createForest g count).1).length = count.toNat := by
  simp only [createForest, List.length_cons, placeSatellites_length]
  omega

/-- C1 witness: instantiation at `count = 3`. -/
theorem c1_count_witness :
    (1 : ℤ) ≤ 3 ∧ ((createForest gZero 3).1).length = (3 : ℤ).toNat :=
  ⟨by decide, c1_count gZero 3 (by decide)⟩

/-- C2: when every tested candidate conflicts with the placed set (the
retry counter exceeds the 200-try ceiling), `getRandomPosition` accepts
the last-drawn candidate anyway, appends it to `placedPositions`, and
returns it; the embedding is a total function, so constraint-exhaustion
is never surfaced as an error. -/
theorem c2_fallback_accepts (g : ℕ → ℚ × ℚ) (st : SamplerState)
    (h : ∀ j < maxRetries,
      st.placed.any (fun p => tooCloseB p (candidate g (st.k + j))) = true) :
    (getRandomPosition g st).1 = candidate g (st.k + maxRetries) ∧
    ((getRandomPosition g st).2).placed =
      st.placed ++ [candidate g (st.k + maxRetries)] := by
  have he := drawLoop_exhaust g st.placed maxRetries st.k h
  constructor
  · show (drawLoop g st.placed st.k maxRetries).pos = _
    rw [he]
  · show st.placed ++ [(drawLoop g st.placed st.k maxRetries).pos] = _
    rw [he]

/-- C2 witness: a stream drawing the origin forever against a placed set
already containing the origin exhausts the budget and still accepts. -/
theorem c2_fallback_accepts_witness :
    (getRandomPosition gZero ⟨[origin], 0, 0⟩).1 = candidate gZero (0 + maxRetries) ∧
    ((getRandomPosition gZero ⟨[origin], 0, 0⟩).2).placed =
      [origin] ++ [candidate gZero (0 + maxRetries)] :=
  c2_fallback_accepts gZero ⟨[origin], 0, 0⟩ (by
    intro j hj
    norm_num [tooCloseB, candidate, gZero, origin, distSq, minDistance])

/-- C3: if the retry budget was not exhausted (the loop consumed fewer
than `maxRetries + 1` draws), the accepted position keeps squared
distance at least `minDistance * minDistance` from every position
already in `placedPositions`; and a candidate too close to any placed
position is rejected and redrawn while retries remain. -/
theorem c3_distance_invariant :
    (∀ (g : ℕ → ℚ × ℚ) (st : SamplerState),
      ((getRandomPosition g st).2).k ≠ st.k + maxRetries + 1 →
      ∀ p ∈ st.placed,
        minDistance * minDistance ≤ distSq p (getRandomPosition g st).1) ∧
    (∀ (g : ℕ → ℚ × ℚ) (placed : List Vec3) (k r : ℕ),
      placed.any (fun p => tooCloseB p (candidate g k)) = true →
      drawLoop g placed k (r + 1) =
        ⟨(drawLoop g placed (k + 1) r).pos, (drawLoop g placed (k + 1) r).next,
         (drawLoop g placed (k + 1) r).tests + 1⟩) := by
  constructor
  · intro g st hne p hp
    rcases drawLoop_dist_or_exhaust g st.placed maxRetries st.k with hd | he
    · exact hd p hp
    · exact absurd he hne
  · intro g placed k r h
    simp [drawLoop, h]

/-- C3 witness: a far-away placed point lets the first draw through and
the distance bound holds; a conflicting first candidate forces a redraw. -/
theorem c3_distance_invariant_witness :
    minDistance * minDistance ≤
      distSq ⟨100, 0, 100⟩ (getRandomPosition gZero ⟨[⟨100, 0, 100⟩], 0, 0⟩).1 ∧
    drawLoop gNear [origin] 0 (4 + 1) =
      ⟨(drawLoop gNear [origin] 1 4).pos, (drawLoop gNear [origin] 1 4).next,
       (drawLoop gNear [origin] 1 4).tests + 1⟩ := by
  refine ⟨c3_distance_invariant.1 gZero ⟨[⟨100, 0, 100⟩], 0, 0⟩ ?_ ⟨100, 0, 100⟩
      (List.mem_cons_self _ _),
    c3_distance_invariant.2 gNear [origin] 0 4 ?_⟩
  · have h0 : ([(⟨100, 0, 100⟩ : Vec3)]).any
        (fun p => tooCloseB p (candidate gZero 0)) = false := by
      norm_num [tooCloseB, candidate, gZero, distSq, minDistance]
    have h1 : drawLoop gZero [⟨100, 0, 100⟩] 0 maxRetries =
        ⟨candidate gZero 0, 1, 1⟩ := by
      rw [maxRetries_succ]
      exact drawLoop_accept gZero [⟨100, 0, 100⟩] 0 199 h0
    show (drawLoop gZero [⟨100, 0, 100⟩] 0 maxRetries).next ≠ 0 + maxRetries + 1
    rw [h1]
    norm_num [maxRetries]
  · norm_num [tooCloseB, candidate, gNear, origin, distSq, minDistance]

/-- C4: the main tree at the origin is never pushed to
`placedPositions` — after `createForest(count)` the placement set holds
`count - 1` entries (the satellites only) — and since no candidate is
checked against the origin, a satellite can be accepted arbitrarily
close to the main tree: for every `count ≥ 2`, a stream drawing (1, 1)
puts the first satellite at squared distance 2 < 40·40 from the origin. -/
theorem c4_main_not_tracked :
    (∀ (g : ℕ → ℚ × ℚ) (count : ℤ),
      (((createForest g count).2).placed).length = (count - 1).toNat) ∧
    (∀ count : ℤ, 2 ≤ count →
      ((createForest gNear count).1)[1]? = some ⟨1, 0, 1⟩ ∧
      distSq origin ⟨1, 0, 1⟩ < minDistance * minDistance) := by
  constructor
  · intro g count
    simp [createForest, placeSatellites_placed_length]
  · intro count h
    have hn : (count - 1).toNat = ((count - 1).toNat - 1) + 1 := by omega
    constructor
    · simp only [createForest]
      rw [hn]
      simp only [placeSatellites, List.getElem?_cons_succ, List.getElem?_cons_zero]
      have h1 : drawLoop gNear [] 0 maxRetries = ⟨candidate gNear 0, 1, 1⟩ := by
        rw [maxRetries_succ]
        exact drawLoop_accept gNear [] 0 199 rfl
      show some (drawLoop gNear [] 0 maxRetries).pos = some ⟨1, 0, 1⟩
      rw [h1]
      rfl
    · norm_num [distSq, origin, minDistance]

/-- C4 witness: instantiation at `count = 2`. -/
theorem c4_main_not_tracked_witness :
    (2 : ℤ) ≤ 2 ∧
    (((createForest gNear 2).1)[1]? = some ⟨1, 0, 1⟩ ∧
      distSq origin ⟨1, 0, 1⟩ < minDistance * minDistance) :=
  ⟨by decide, c4_main_not_tracked.2 2 (by decide)⟩

/-- C5 counterexample: `createForest(0)` does not return an empty
sequence — the main tree is placed unconditionally. -/
theorem c5_cex : (createForest gZero 0).1 ≠ ([] : List Vec3) := by
  decide

/-- C5 (amended): `count = 0` still yields the single main-tree position
at the origin (not an empty sequence); `count = 1` yields exactly that
single origin position, with `placedPositions` left empty and no
distance check ever performed. -/
theorem c5_boundary (g : ℕ → ℚ × ℚ) :
    (createForest g 0).1 = [origin] ∧
    (createForest g 1).1 = [origin] ∧
    ((createForest g 1).2).placed = [] ∧
    ((createForest g 1).2).tests = 0 :=
  ⟨rfl, rfl, rfl, rfl⟩

/-- C6 counterexample: a negative count is not rejected — the call
returns normally with the main tree only. -/
theorem c6_cex : createForest gZero (-5) = ([origin], ⟨[], 0, 0⟩) := rfl

/-- C6 (amended): the implementation performs no eager validation: for
any `count < 1` the build still returns normally with just the main
tree and an empty placement set, and `minDistance` is the fixed
positive constant 40, so a non-positive exclusion radius cannot occur. -/
theorem c6_no_validation (g : ℕ → ℚ × ℚ) (count : ℤ) (h : count < 1) :
    createForest g count = ([origin], ⟨[], 0, 0⟩) ∧ 0 < minDistance := by
  have hn : (count - 1).toNat = 0 := by omega
  exact ⟨by simp [createForest, hn, placeSatellites], by decide⟩

/-- C6 witness: instantiation at `count = -5`. -/
theorem c6_no_validation_witness :
    (-5 : ℤ) < 1 ∧
    (createForest gZero (-5) = ([origin], ⟨[], 0, 0⟩) ∧ 0 < minDistance) :=
  ⟨by decide, c6_no_validation gZero (-5) (by decide)⟩

/-- C7: when every stream draw lies in `[-safeRadius, safeRadius]` on
both axes (the range of `randFloatSpread(safeRadius * 2)`), every
position returned by `createForest` satisfies `|x| ≤ safeRadius` and
`|z| ≤ safeRadius`, with `safeRadius = 210`; and candidates are never
clipped to the disk: a corner draw (210, 210), outside the disk of
radius `safeRadius`, is accepted unchanged. -/
theorem c7_region_containment :
    (∀ (g : ℕ → ℚ × ℚ) (count : ℤ),
      (∀ n, |(g n).1| ≤ safeRadius ∧ |(g n).2| ≤ safeRadius) →
      ∀ pos ∈ (createForest g count).1,
        |pos.x| ≤ safeRadius ∧ |pos.z| ≤ safeRadius) ∧
    safeRadius = 210 ∧
    (getRandomPosition gCorner ⟨[], 0, 0⟩).1 = ⟨210, 0, 210⟩ ∧
    safeRadius * safeRadius < 210 * 210 + 210 * 210 := by
  refine ⟨?_, by norm_num [safeRadius, groundSize], ?_,
    by norm_num [safeRadius, groundSize]⟩
  · intro g count hb pos hmem
    simp only [createForest, List.mem_cons] at hmem
    rcases hmem with h | h
    · subst h
      constructor <;> norm_num [origin, safeRadius, groundSize]
    · obtain ⟨j, rfl⟩ := placeSatellites_mem g (count - 1).toNat ⟨[], 0, 0⟩ pos h
      exact ⟨(hb j).1, (hb j).2⟩
  · have h1 : drawLoop gCorner [] 0 maxRetries = ⟨candidate gCorner 0, 1, 1⟩ := by
      rw [maxRetries_succ]
      exact drawLoop_accept gCorner [] 0 199 rfl
    show (drawLoop gCorner [] 0 maxRetries).pos = ⟨210, 0, 210⟩
    rw [h1]
    rfl

/-- C7 witness: the bounded-stream hypothesis discharged for the
constant zero stream, applied to the main-tree position. -/
theorem c7_region_containment_witness :
    |origin.x| ≤ safeRadius ∧ |origin.z| ≤ safeRadius :=
  c7_region_containment.1 gZero 2
    (by intro n; constructor <;> norm_num [gZero, safeRadius, groundSize])
    origin (List.mem_cons_self _ _)

/-- C8: each retry loop draws at most `maxRetries + 1` candidates
before accepting one, and a whole `createForest` run consumes at most
`(count - 1) * (maxRetries + 1)` draws and evaluates the rejection
condition against the growing placed set at most
`(count - 1) * maxRetries` times, so the sampler terminates with
bounded work. -/
theorem c8_bounded_work :
    (∀ (g : ℕ → ℚ × ℚ) (placed : List Vec3) (k : ℕ),
      (drawLoop g placed k maxRetries).next ≤ k + (maxRetries + 1)) ∧
    (∀ (g : ℕ → ℚ × ℚ) (count : ℤ),
      ((createForest g count).2).k ≤ (count - 1).toNat * (maxRetries + 1) ∧
      ((createForest g count).2).tests ≤ (count - 1).toNat * maxRetries) := by
  constructor
  · intro g placed k
    obtain ⟨j, _, h2, _, h4⟩ := drawLoop_spec g placed maxRetries k
    omega
  · intro g count
    constructor
    · have := placeSatellites_k g (count - 1).toNat ⟨[], 0, 0⟩
      simpa [createForest] using this
    · have := placeSatellites_tests g (count - 1).toNat ⟨[], 0, 0⟩
      simpa [createForest] using this

/-- C9: the reference configuration: `safeRadius = groundSize / 2 - 40 =
210`, `minDistance = 40`, and for `count = 21` the forest has exactly 21
positions, the first fixed at the origin (the special-cased main tree)
and the remaining 20 drawn by the sampler into `placedPositions`. -/
theorem c9_reference_config :
    safeRadius = 210 ∧ groundSize / 2 - 40 = safeRadius ∧ minDistance = 40 ∧
    ∀ (g : ℕ → ℚ × ℚ),
      ((createForest g 21).1).length = 21 ∧
      ((createForest g 21).1).head? = some origin ∧
      (((createForest g 21).2).placed).length = 20 := by
  refine ⟨by norm_num [safeRadius, groundSize], rfl, rfl, fun g => ⟨?_, rfl, ?_⟩⟩
  · simp only [createForest, List.length_cons, placeSatellites_length]
    decide
  · simp only [createForest, placeSatellites_placed_length]
    decide

/-- C10: every call to `getRandomPosition` appends exactly the returned
position to `placedPositions`, leaving all previously stored positions
unchanged (the old list is a prefix of the new one), and the returned
position always has y-coordinate 0. -/
theorem c10_push_frame (g : ℕ → ℚ × ℚ) (st : SamplerState) :
    ((getRandomPosition g st).2).placed = st.placed ++ [(getRandomPosition g st).1] ∧
    ((getRandomPosition g st).1).y = 0 :=
  ⟨rfl, drawLoop_y g st.placed maxRetries st.k⟩

end TreeDemo
